import Mathlib

/-!
Verification development for the slursbot ingestion/reconciliation pipeline.

Shallow embedding of the Python sources:
  * `db.py`          — validated-message upsert, raw audit insert, roster upsert;
  * `slurs_api.py`   — identifier conversion, chunking, URL building,
                       degraded-mode fetch fallback;
  * `ozf_roster.py`  — roster probe and forward-scan refresh loop;
  * `main.py`        — allow/deny-list filtering.

Modelling conventions:
  * Python `dict` payload values are modelled as `Option String` fields
    (`none` = key absent or `None`).
  * Python truthiness of strings (`""` and `None` are falsy) is `optTruthy`;
    Python `a or b` on such values is `pyOr`.
  * The relational store is modelled as an in-memory list of records; each
    SQL statement is translated into the corresponding pure list operation.
  * SHA-256 (used only to build the dedupe key) is modelled as the identity
    on its preimage string `sid ++ "|" ++ iso ++ "|" ++ text`; the code relies
    only on the hash being a function of exactly that string (collisions are
    out of scope).
  * HTTP is modelled as an oracle function supplied as an argument; an
    uncaught Python exception is `Except.error ()`.
  * Wall-clock effects (`time.sleep`, `created_at` / `updated_at` columns)
    are omitted: no claim mentions them.
-/

/-- Python truthiness of an optional string: `None` and `""` are falsy. -/
def optTruthy : Option String → Bool
  | none => false
  | some s => !s.data.isEmpty

/-- Python `a or b` for optional strings: returns `b` whenever `a` is falsy. -/
def pyOr (a b : Option String) : Option String :=
  if optTruthy a then a else b

/-- Python `x or None` for an optional string: normalizes falsy values to `none`. -/
def pyOrNone (a : Option String) : Option String :=
  if optTruthy a then a else none

/-- Python `str.isdigit()` (restricted to ASCII digits): nonempty and all digits. -/
def pyIsdigit (s : String) : Bool :=
  !s.data.isEmpty && s.data.all Char.isDigit

/-- Python `int(...)` on a string of ASCII digits. -/
def natOfDigits (s : String) : Nat :=
  s.data.foldl (fun n c => n * 10 + (c.toNat - 48)) 0

/-- Python `str.strip()`: drop leading and trailing whitespace. -/
def pyStrip (s : String) : String :=
  ⟨((s.data.dropWhile Char.isWhitespace).reverse.dropWhile Char.isWhitespace).reverse⟩

/-- Python `str.lower()` (character-wise). -/
def pyLower (s : String) : String :=
  ⟨s.data.map Char.toLower⟩

/-! ## slurs_api.py — identifier conversion -/

/-- `STEAM64_BASE` constant from `slurs_api.py` (and `db.py`). -/
def STEAM64_BASE : Nat := 76561197960265728

/-- Model of `re.findall(r"(\d+)", s)[-1]`: the last maximal run of ASCII
digits in `s`, or `none` when `s` contains no digit.  `cur` is the digit run
currently being read, `last` the last completed run seen so far. -/
def lastDigitRunAux : List Char → List Char → Option (List Char) → Option (List Char)
  | [], cur, last => if cur.isEmpty then last else some cur
  | c :: cs, cur, last =>
    if c.isDigit then lastDigitRunAux cs (cur ++ [c]) last
    else lastDigitRunAux cs [] (if cur.isEmpty then last else some cur)

/-- Last maximal digit run of a string, as a string. -/
def lastDigitRun (s : String) : Option String :=
  (lastDigitRunAux s.data [] none).map fun l => ⟨l⟩

/-- `_steam3_to_steam64` from `slurs_api.py`: grab the last group of digits
and add the Steam64 base; `None` when the string is empty or has no digits.
(The `int(...)` conversion never fails on a `\d+` match, so the `except`
branch is dead.) -/
def steam3_to_steam64 (s : String) : Option Nat :=
  if s = "" then none
  else
    match lastDigitRun s with
    | none => none
    | some d => some (STEAM64_BASE + natOfDigits d)

/-- Steamid64 derivation step of `_normalize_row` (`slurs_api.py` lines
165-172): when the row has no `steamid64` yet, a 17-digit all-digit
candidate is accepted as-is, otherwise it is converted from Steam3 form. -/
def deriveSteamid64 (s3 : String) : Option String :=
  if pyIsdigit s3 = true ∧ s3.length = 17 then some s3
  else
    match steam3_to_steam64 s3 with
    | some n => some (toString n)
    | none => none

/-! ## slurs_api.py — chunking and URL building -/

/-- Slice loop of `_chunk`, specialised to a positive chunk size `s + 1`. -/
def chunkPos (s : Nat) : List Nat → List (List Nat)
  | [] => []
  | x :: xs => ((x :: xs).take (s + 1)) :: chunkPos s (xs.drop s)
termination_by l => l.length
decreasing_by
  simp only [List.length_drop, List.length_cons]
  omega

/-- `_chunk` from `slurs_api.py`: `size = max(1, int(size))`, then successive
slices `seq[i : i + size]`. -/
def chunkList (seq : List Nat) (size : Nat) : List (List Nat) :=
  chunkPos (max 1 size - 1) seq

/-- Hex digit used by `urllib.parse.quote_plus` percent-encoding (uppercase). -/
def hexDigit (n : Nat) : Char :=
  if n < 10 then Char.ofNat (48 + n) else Char.ofNat (55 + n)

/-- `urllib.parse.quote_plus` on a single UTF-8 byte: safe bytes pass through,
space becomes `+`, the rest is percent-encoded. -/
def quotePlusByte (b : UInt8) : String :=
  let n := b.toNat
  if (48 ≤ n ∧ n ≤ 57) ∨ (65 ≤ n ∧ n ≤ 90) ∨ (97 ≤ n ∧ n ≤ 122)
      ∨ n = 45 ∨ n = 46 ∨ n = 95 ∨ n = 126 then
    String.singleton (Char.ofNat n)
  else if n = 32 then "+"
  else "%" ++ String.singleton (hexDigit (n / 16)) ++ String.singleton (hexDigit (n % 16))

/-- `urllib.parse.quote_plus` over the UTF-8 bytes of a string. -/
def quotePlus (s : String) : String :=
  (s.toUTF8.toList.map quotePlusByte).foldl (· ++ ·) ""

/-- One query parameter appended by `_build_url` in `slurs_api.py`; the
rendering to the f-string form is `renderParam`. -/
inductive QParam where
  | steamid (sid : Nat)
  | category
  | after (v : String)
  | before (v : String)
  | limit (n : Nat)
  | offset (n : Nat)
deriving DecidableEq, Repr

/-- Rendering of a query parameter, matching the f-strings of `_build_url`. -/
def renderParam : QParam → String
  | .steamid sid => "steamid=" ++ toString sid
  | .category => "category=total"
  | .after v => "after=" ++ quotePlus v
  | .before v => "before=" ++ quotePlus v
  | .limit n => "limit=" ++ toString n
  | .offset n => "offset=" ++ toString n

/-- The query-parameter list `q` built by `_build_url`: one `steamid=` entry
per id in the chunk, then the optional category / after / before entries,
then `limit` and `offset`. -/
def buildQuery (ids_chunk : List Nat) (include_category : Bool) (lim off : Nat)
    (after_iso before_iso : Option String) : List QParam :=
  (ids_chunk.map QParam.steamid)
    ++ (if include_category then [QParam.category] else [])
    ++ (if optTruthy after_iso then [QParam.after (after_iso.getD "")] else [])
    ++ (if optTruthy before_iso then [QParam.before (before_iso.getD "")] else [])
    ++ [QParam.limit lim, QParam.offset off]

/-- `API_MESSAGES` endpoint (with the default `SLURS_API_BASE`). -/
def API_MESSAGES : String := "https://slurs.tf/api/messages"

/-- `_build_url` from `slurs_api.py`: the endpoint followed by the
`&`-joined query parameters. -/
def build_url (ids_chunk : List Nat) (include_category : Bool) (lim off : Nat)
    (after_iso before_iso : Option String) : String :=
  API_MESSAGES ++ "?" ++
    "&".intercalate ((buildQuery ids_chunk include_category lim off after_iso before_iso).map renderParam)

/-- Number of `steamid=` parameters in a query. -/
def countIdParams (q : List QParam) : Nat :=
  q.countP fun p => match p with | .steamid _ => true | _ => false

/-! ## db.py and slurs_api.py — message rows -/

/-- An upstream API row as consumed by `db.py` / `slurs_api.py`.  Fields are
the dictionary keys the code reads; `none` models an absent key (or an
explicit `None` value). -/
structure MsgRow where
  source : Option String := none
  message_id : Option String := none
  steamid64 : Option String := none
  steamid : Option String := none
  logid : Option String := none
  logdate : Option String := none
  messagedate : Option String := none
  msg_time_iso : Option String := none
  text : Option String := none
  message : Option String := none
  payload_json : Option String := none
deriving DecidableEq, Repr

/-- `sid_str` computed by `upsert_messages`:
`str(r.get("steamid64") or r.get("steamid")).strip()` (or `""`). -/
def rowSid (r : MsgRow) : String :=
  pyStrip ((pyOr r.steamid64 r.steamid).getD "")

/-- `iso` computed by `upsert_messages`:
`(r.get("msg_time_iso") or r.get("logdate") or r.get("messagedate") or "").strip()`. -/
def rowIso (r : MsgRow) : String :=
  pyStrip ((pyOr r.msg_time_iso (pyOr r.logdate r.messagedate)).getD "")

/-- `text` computed by `upsert_messages`: `r.get("text") or r.get("message")`. -/
def rowText (r : MsgRow) : Option String :=
  pyOr r.text r.message

/-- Dedupe key of a row: the SHA-256 preimage `f"{sid_str}|{iso}|{text}"`
(see the modelling conventions above). -/
def rowKey (r : MsgRow) : String :=
  rowSid r ++ "|" ++ rowIso r ++ "|" ++ (rowText r).getD ""

/-- `logid` column value computed by `upsert_messages`. -/
def rowLogid (r : MsgRow) : Option Nat :=
  match r.logid with
  | some l => if pyIsdigit (pyStrip l) then some (natOfDigits (pyStrip l)) else none
  | none => none

/-- A stored record of the validated message table `dbo.slurs_msg`. -/
structure MsgRec where
  message_id : Option String
  steamid64 : Nat
  logid : Option Nat
  msg_time_utc : String
  text : String
  hash_key : String
deriving DecidableEq, Repr

/-- The record inserted for a row that passed validation. -/
def mkMsgRec (r : MsgRow) : MsgRec :=
  { message_id := r.message_id
    steamid64 := natOfDigits (rowSid r)
    logid := rowLogid r
    msg_time_utc := rowIso r
    text := (rowText r).getD ""
    hash_key := rowKey r }

/-- Loop body of `upsert_messages` (`db.py` lines 142-175), acting on the
state `(inserted, skipped, table)`: validate, then insert-if-absent by
`hash_key` (the `IF NOT EXISTS ... INSERT` statement); `cur.rowcount` is
modelled as 1 exactly when the insert ran. -/
def upsertStep (st : Nat × Nat × List MsgRec) (r : MsgRow) : Nat × Nat × List MsgRec :=
  let (ins, skip, tbl) := st
  if ¬(pyIsdigit (rowSid r) = true ∧ (rowSid r).length = 17) then
    (ins, skip + 1, tbl)
  else if rowIso r = "" ∨ optTruthy (rowText r) = false then
    (ins, skip + 1, tbl)
  else if tbl.any fun m => m.hash_key == rowKey r then
    (ins, skip, tbl)
  else
    (ins + 1, skip, tbl ++ [mkMsgRec r])

/-- `upsert_messages` from `db.py`: fold the loop body over the rows,
returning `(inserted, skipped, table)` (the Python function returns
`inserted` and logs `skipped`). -/
def upsert_messages (rows : List MsgRow) (tbl : List MsgRec) : Nat × Nat × List MsgRec :=
  rows.foldl upsertStep (0, 0, tbl)

/-- A stored record of the raw audit table `dbo.slurs_raw`. -/
structure RawRec where
  source : String
  message_id : Option String
  steamid64 : Option Nat
  logid : Option Nat
  logdate_txt : Option String
  text : Option String
  payload_json : Option String
deriving DecidableEq, Repr

/-- The column values bound by `insert_raw_rows` (`db.py` lines 96-114) for
one row: note the key orders differ from `upsert_messages`
(`steamid` before `steamid64`, `message` before `text`). -/
def rawRec (r : MsgRow) : RawRec :=
  let steamid64 := pyOr r.steamid r.steamid64
  let logdate := pyOr r.logdate (pyOr r.msg_time_iso r.messagedate)
  { source := r.source.getD "slurs.tf"
    message_id := r.message_id
    steamid64 :=
      match steamid64 with
      | some s => if pyIsdigit (pyStrip s) then some (natOfDigits (pyStrip s)) else none
      | none => none
    logid :=
      match r.logid with
      | some l => if pyIsdigit (pyStrip l) then some (natOfDigits (pyStrip l)) else none
      | none => none
    logdate_txt := logdate
    text := pyOr r.message r.text
    payload_json := r.payload_json }

/-- `insert_raw_rows` from `db.py`: append every row verbatim (no
deduplication), counting the inserts. -/
def insert_raw_rows (rows : List MsgRow) (raw : List RawRec) : Nat × List RawRec :=
  rows.foldl (fun st r => (st.1 + 1, st.2 ++ [rawRec r])) (0, raw)

/-! ## db.py — ozfortress roster upsert -/

/-- A stored record of `kian.oz.players` (timestamp columns omitted). -/
structure OzPlayer where
  oz_id : Nat
  steamid64 : Option String
  current_name : String
  oz_profile_url : Option String
  steam_profile_url : Option String
deriving DecidableEq, Repr

/-- An input row for `upsert_oz_players`, as produced by `probe_user`. -/
structure OzRow where
  oz_id : Nat
  steamid64 : Option String
  current_name : Option String
  oz_profile_url : Option String
  steam_profile_url : Option String
deriving DecidableEq, Repr

/-- SQL `COALESCE` on two nullable values. -/
def coalesce (a b : Option String) : Option String :=
  match a with
  | some x => some x
  | none => b

/-- `get_max_oz_id` from `db.py`: `ISNULL(MAX(oz_id), 0)`. -/
def get_max_oz_id (tbl : List OzPlayer) : Nat :=
  tbl.foldl (fun m p => max m p.oz_id) 0

/-- The `name` computed in the `upsert_oz_players` loop:
`(r.get("current_name") or "").strip()`, falling back to `ozf_user_<oz_id>`. -/
def ozName (r : OzRow) : String :=
  let name := pyStrip ((r.current_name).getD "")
  if name = "" then "ozf_user_" ++ toString r.oz_id else name

/-- The `WHEN MATCHED` update of the `MERGE` in `upsert_oz_players`, applied
to a target record (`src.steamid64` is never null here because rows without
a steamid are skipped before the statement runs). -/
def ozMerge (r : OzRow) (t : OzPlayer) : OzPlayer :=
  let name := ozName r
  { t with
    steamid64 := coalesce (some ((r.steamid64).getD "")) t.steamid64
    current_name := if pyStrip name ≠ "" then pyStrip name else t.current_name
    oz_profile_url := coalesce (pyOrNone r.oz_profile_url) t.oz_profile_url
    steam_profile_url := coalesce (pyOrNone r.steam_profile_url) t.steam_profile_url }

/-- The `WHEN NOT MATCHED` insert of the `MERGE` in `upsert_oz_players`. -/
def ozInsert (r : OzRow) : OzPlayer :=
  { oz_id := r.oz_id
    steamid64 := some ((r.steamid64).getD "")
    current_name :=
      pyStrip ((coalesce (if ozName r = "" then none else some (ozName r))
          (some ("ozf_user_" ++ toString r.oz_id))).getD "")
    oz_profile_url := pyOrNone r.oz_profile_url
    steam_profile_url := pyOrNone r.steam_profile_url }

/-- Loop body of `upsert_oz_players` (`db.py` lines 248-268): skip rows
without a (truthy) steamid, otherwise run the `MERGE` keyed on `oz_id` and
count the row. -/
def upsertOzStep (acc : Nat × List OzPlayer) (r : OzRow) : Nat × List OzPlayer :=
  let (count, tbl) := acc
  if optTruthy r.steamid64 = false then (count, tbl)
  else
    let tbl' :=
      if tbl.any fun t => t.oz_id == r.oz_id then
        tbl.map fun t => if t.oz_id == r.oz_id then ozMerge r t else t
      else tbl ++ [ozInsert r]
    (count + 1, tbl')

/-- `upsert_oz_players` from `db.py`: fold the loop body, returning
`(count, table)` (the Python function returns `count`). -/
def upsert_oz_players (tbl : List OzPlayer) (rows : List OzRow) : Nat × List OzPlayer :=
  rows.foldl upsertOzStep (0, tbl)

/-! ## ozf_roster.py — probe and forward-scan refresh -/

/-- Outcome of the HTTP GET issued by `probe_user`, abstracted past the two
regular expressions: a 404, a 2xx page carrying the (optional) first
`steamcommunity.com/profiles/(\d{17})` match and the (optional) raw `<h1>`
group, or any other status / transport failure (which `raise_for_status`
or `requests.get` turns into an exception). -/
inductive HttpOutcome where
  | notFound
  | success (steamid64 : Option String) (h1 : Option String)
  | failure
deriving DecidableEq, Repr

/-- Index of the first `>` in a character list. -/
def findGt : List Char → Option Nat
  | [] => none
  | c :: cs => if c = '>' then some 0 else (findGt cs).map (· + 1)

/-- Model of `re.sub(r"<[^>]+>", "", s)`: drop every span that starts with
`<`, contains at least one non-`>` character, and ends at the next `>`. -/
def stripTags : List Char → List Char
  | [] => []
  | c :: cs =>
    if c = '<' then
      match hf : findGt cs with
      | some i =>
        if 1 ≤ i then stripTags (cs.drop (i + 1)) else c :: stripTags cs
      | none => c :: stripTags cs
    else c :: stripTags cs
termination_by l => l.length
decreasing_by
  · simp only [List.length_drop, List.length_cons]
    omega
  · simp
  · simp
  · simp

/-- `probe_user` from `ozf_roster.py`, over an HTTP oracle `fetch`: a 404
yields a row with only `oz_id` set; a 2xx page yields the parsed row (name
cleaned of embedded tags, empty name normalised to `None`); any other
outcome raises. -/
def probe_user (fetch : Nat → HttpOutcome) (user_id : Nat) : Except Unit OzRow :=
  match fetch user_id with
  | .notFound => .ok { oz_id := user_id, steamid64 := none, current_name := none,
                       oz_profile_url := none, steam_profile_url := none }
  | .failure => .error ()
  | .success sid h1 =>
    let raw_name := (h1.map pyStrip).getD ""
    let current_name := pyStrip (String.mk (stripTags raw_name.data))
    .ok { oz_id := user_id
          steamid64 := sid
          current_name := if current_name = "" then none else some current_name
          oz_profile_url := some ("https://ozfortress.com/users/" ++ toString user_id)
          steam_profile_url :=
            if optTruthy sid then
              some ("https://steamcommunity.com/profiles/" ++ sid.getD "")
            else none }

/-- Loop of `refresh` (`ozf_roster.py` lines 77-94).  `rem` is the number of
loop iterations left (`max_probe` down to 0); because `checked` is
incremented on every non-raising probe and a raising probe aborts the whole
function, the id probed at the head of each iteration is
`base + checked + 1`.  A truthy `steamid64` resets the streak and upserts
that single record immediately; otherwise the 404-streak grows.  The loop
breaks when the streak reaches `stopT`, and an HTTP failure propagates as
an exception. -/
def refreshGo (fetch : Nat → HttpOutcome) (base stopT : Nat) :
    Nat → Nat → Nat → Nat → List OzPlayer → Except Unit (Nat × Nat × List OzPlayer)
  | 0, _, checked, changed, tbl => .ok (checked, changed, tbl)
  | rem + 1, streak, checked, changed, tbl =>
    match probe_user fetch (base + checked + 1) with
    | .error _ => .error ()
    | .ok rec =>
      if optTruthy rec.steamid64 then
        let (n, tbl') := upsert_oz_players tbl [rec]
        if stopT ≤ 0 then .ok (checked + 1, changed + n, tbl')
        else refreshGo fetch base stopT rem 0 (checked + 1) (changed + n) tbl'
      else
        if stopT ≤ streak + 1 then .ok (checked + 1, changed, tbl)
        else refreshGo fetch base stopT rem (streak + 1) (checked + 1) changed tbl

/-- `refresh` from `ozf_roster.py`: probe forward from `MAX(oz_id)`,
returning `(checked, changed, table)` on normal termination and an
exception if some probe's transport fails. -/
def refresh (fetch : Nat → HttpOutcome) (tbl : List OzPlayer)
    (max_probe stop_after_404 : Nat) : Except Unit (Nat × Nat × List OzPlayer) :=
  refreshGo fetch (get_max_oz_id tbl) stop_after_404 max_probe 0 0 0 tbl

/-- Whether an outcome is counted into the 404 streak by `refresh`: the
parsed record's `steamid64` is falsy.  (`failure` never reaches the streak
update; its value here is irrelevant.) -/
def outcomeNoSid : HttpOutcome → Bool
  | .notFound => true
  | .success sid _ => !optTruthy sid
  | .failure => true

/-- Whether an outcome is a found-with-steamid result. -/
def outcomeFoundSid : HttpOutcome → Bool
  | .success sid _ => optTruthy sid
  | _ => false

/-- The 404-streak accumulator value after the probes of ids
`start + 1 .. start + k`, starting from streak `s`: it is the length of the
maximal run of sid-less outcomes ending at `start + k` (extended by `s` if
that run covers the whole range). -/
def streakFrom (fetch : Nat → HttpOutcome) (start s : Nat) : Nat → Nat
  | 0 => s
  | k + 1 =>
    if outcomeNoSid (fetch (start + k + 1)) then streakFrom fetch start s k + 1 else 0

/-! ## slurs_api.py — degraded-mode fetch fallback -/

/-- The soft-failure statuses treated as server-side by `_fetch_chunk`
(the `serverish` set). -/
def serverish (last_status : Option String) : Bool :=
  match last_status with
  | some s => ["500", "502", "503", "504", "timeout", "conn_err", "non_json", "empty"].contains s
  | none => false

/-- `_text_contains_any` from `slurs_api.py`: case-folded substring
containment of any of the words. -/
def text_contains_any (text : String) (words : List String) : Bool :=
  if text = "" ∨ words = [] then false
  else words.any fun w => decide (List.IsInfix w.data (pyLower text).data)

/-- `_fetch_chunk` from `slurs_api.py`, over a paginate oracle: `paginate b`
is the `(ok, rows, last_status)` result of `_paginate` with
`include_category = b`.  On a soft failure of the classified request with a
server-side status, retry unclassified; a successful fallback is filtered
through the lexicon, and an empty lexicon fails closed (returns `[]`). -/
def fetch_chunk (paginate : Bool → Bool × List MsgRow × Option String)
    (category : Option String) (lex_words : List String) : List MsgRow :=
  let use_cat := optTruthy category
  let (ok, rows, last_status) := paginate use_cat
  if ok then rows
  else if use_cat && serverish last_status then
    let (ok2, rows2, _) := paginate false
    if ok2 then
      if lex_words.isEmpty then []
      else rows2.filter fun r => text_contains_any ((r.message).getD "") lex_words
    else rows
  else rows

/-! ## main.py — allow/deny-list filtering -/

/-- The statistics dictionary returned by `_apply_allowlist_filter`. -/
structure FilterStats where
  enabled : Bool
  allow_terms : Nat
  lex_terms : Nat
  dropped : Nat
  kept : Nat
deriving DecidableEq, Repr

/-- The message text the filter matches on:
`str(r.get("message") or r.get("text") or "")`. -/
def filterMsg (r : MsgRow) : String :=
  (pyOr r.message r.text).getD ""

/-- `_apply_allowlist_filter` from `main.py`, with the word-boundary regex
search of the external `re` library abstracted as the oracle `search`
(`search ws t` models `compile_word_re(ws).search(t)` being truthy; the
compiled pattern is `None` exactly when the word list is empty, which the
code tests before calling `search`).  `do_drop` is the `ALLOWLIST_DROP`
setting; `allow_words` / `lex_words` are the loaded word lists. -/
def allowStep (search : List String → String → Bool)
    (allow_words lex_words : List String)
    (acc : List MsgRow × Nat) (r : MsgRow) : List MsgRow × Nat :=
  let t := filterMsg r
  if lex_words ≠ [] ∧ search lex_words t = true then (acc.1 ++ [r], acc.2)
  else if search allow_words t then (acc.1, acc.2 + 1)
  else (acc.1 ++ [r], acc.2)

/-- The keep condition of the filter loop: a row is kept when a lexicon
term matches (and the lexicon is non-empty), or when no allow-list term
matches. -/
def allowKeep (search : List String → String → Bool)
    (allow_words lex_words : List String) (r : MsgRow) : Bool :=
  (decide (lex_words ≠ []) && search lex_words (filterMsg r)) || !search allow_words (filterMsg r)

def apply_allowlist_filter (search : List String → String → Bool)
    (do_drop : Bool) (allow_words lex_words : List String)
    (rows : List MsgRow) : List MsgRow × FilterStats :=
  if do_drop = false ∨ allow_words = [] then
    (rows, { enabled := false, allow_terms := allow_words.length,
             lex_terms := lex_words.length, dropped := 0, kept := rows.length })
  else
    let (kept, dropped) := rows.foldl (allowStep search allow_words lex_words) ([], 0)
    (kept, { enabled := true, allow_terms := allow_words.length,
             lex_terms := lex_words.length, dropped := dropped, kept := kept.length })

/-! ## Concrete inputs for witnesses and counterexamples -/

/-- A roster table holding oz ids 1, 2, 3 (the worked example of the spec). -/
def exTbl3 : List OzPlayer :=
  [ { oz_id := 1, steamid64 := some "76561197960265730", current_name := "alice",
      oz_profile_url := none, steam_profile_url := none },
    { oz_id := 2, steamid64 := some "76561197960265731", current_name := "bob",
      oz_profile_url := none, steam_profile_url := none },
    { oz_id := 3, steamid64 := some "76561197960265732", current_name := "carol",
      oz_profile_url := none, steam_profile_url := none } ]

/-- An HTTP oracle answering 404 to every probe. -/
def exFetchNF : Nat → HttpOutcome := fun _ => .notFound

/-- An HTTP oracle failing (non-404 error) on id 4, 404 elsewhere. -/
def exFetchErr : Nat → HttpOutcome := fun i => if i = 4 then .failure else .notFound

/-- An HTTP oracle returning a 2xx page with no steamcommunity link on id 4,
404 elsewhere. -/
def exFetchNoSid : Nat → HttpOutcome :=
  fun i => if i = 4 then .success none (some "Bob") else .notFound

/-- The validated row of the spec's idempotence example. -/
def exRow : MsgRow :=
  { steamid64 := some "76561197960265729"
    msg_time_iso := some "2025-01-01T00:00:00Z"
    text := some "hello" }

/-- A row missing its timestamp (the spec's raw-audit example). -/
def exRowNoTs : MsgRow :=
  { steamid64 := some "76561197960265729", text := some "hello", logid := some "3934184" }

/-- A paginate oracle: classified request soft-fails with HTTP 500, the
unclassified retry succeeds with two rows. -/
def exPaginate : Bool → Bool × List MsgRow × Option String :=
  fun b =>
    if b then (false, [], some "500")
    else (true, [{ message := some "you are bad" }, { message := some "hello there" }], none)

/-- An HTTP oracle always returning a 2xx page that links a steam profile. -/
def exFetchSid : Nat → HttpOutcome :=
  fun _ => .success (some "76561197960265900") none

/-- The row `probe_user` parses from `exFetchSid`'s answer for id 1. -/
def exPr : OzRow :=
  { oz_id := 1
    steamid64 := some "76561197960265900"
    current_name := none
    oz_profile_url := some "https://ozfortress.com/users/1"
    steam_profile_url := some "https://steamcommunity.com/profiles/76561197960265900" }

/-- The row `probe_user` parses from a 404 answer for id 1. -/
def exPr404 : OzRow :=
  { oz_id := 1, steamid64 := none, current_name := none,
    oz_profile_url := none, steam_profile_url := none }

/-! ## Theorems -/

theorem lastDigitRun_empty : lastDigitRun "" = none := rfl

/-- C6: for every input string, the identifier converter returns
`STEAM64_BASE` plus the integer value of the last digit run when one
exists, `None` when the string has no digits, and (in the
`_normalize_row` derivation) accepts an already-canonical 17-digit string
as-is without re-adding the base. -/
theorem steam64_conversion_correct (s : String) :
    (∀ d : String, lastDigitRun s = some d →
      steam3_to_steam64 s = some (STEAM64_BASE + natOfDigits d)) ∧
    (lastDigitRun s = none → steam3_to_steam64 s = none) ∧
    (pyIsdigit s = true → s.length = 17 → deriveSteamid64 s = some s) := by
  refine ⟨?_, ?_, ?_⟩
  · intro d hd
    by_cases hs : s = ""
    · rw [hs] at hd
      rw [lastDigitRun_empty] at hd
      exact Option.noConfusion hd
    · simp [steam3_to_steam64, hs, hd]
  · intro hd
    by_cases hs : s = ""
    · simp [steam3_to_steam64, hs]
    · simp [steam3_to_steam64, hs, hd]
  · intro h1 h2
    simp [deriveSteamid64, h1, h2]

theorem steam64_conversion_check :
    steam3_to_steam64 "[U:1:33844719]" = some (STEAM64_BASE + 33844719) ∧
    steam3_to_steam64 "no digits here!" = none ∧
    deriveSteamid64 "76561197960265729" = some "76561197960265729" := by
  refine ⟨?_, ?_, ?_⟩
  · have h := (steam64_conversion_correct "[U:1:33844719]").1 "33844719" rfl
    rw [h]
    rfl
  · exact (steam64_conversion_correct "no digits here!").2.1 rfl
  · exact (steam64_conversion_correct "76561197960265729").2.2 (by decide) (by decide)

theorem chunkPos_len_le (s : Nat) : ∀ (l : List Nat), ∀ c ∈ chunkPos s l, c.length ≤ s + 1
  | [] => by simp [chunkPos]
  | x :: xs => by
    rw [chunkPos]
    intro c hc
    rcases List.mem_cons.mp hc with h | h
    · subst h
      simp only [List.length_take]
      exact Nat.min_le_left (s + 1) (x :: xs).length
    · exact chunkPos_len_le s (xs.drop s) c h
termination_by l => l.length
decreasing_by
  simp only [List.length_drop, List.length_cons]
  omega

theorem chunkPos_flatten (s : Nat) : ∀ (l : List Nat), (chunkPos s l).flatten = l
  | [] => by simp [chunkPos]
  | x :: xs => by
    rw [chunkPos]
    rw [List.flatten_cons]
    rw [chunkPos_flatten s (xs.drop s)]
    have h : xs.drop s = (x :: xs).drop (s + 1) := (List.drop_succ_cons ..).symm
    rw [h, List.take_append_drop]
termination_by l => l.length
decreasing_by
  simp only [List.length_drop, List.length_cons]
  omega

theorem countIdParams_buildQuery (c : List Nat) (inc : Bool) (lim off : Nat)
    (a b : Option String) : countIdParams (buildQuery c inc lim off a b) = c.length := by
  unfold countIdParams buildQuery
  rw [List.countP_append, List.countP_append, List.countP_append, List.countP_append]
  rw [List.countP_map]
  have h1 : (List.countP (fun p => match p with | QParam.steamid _ => true | _ => false)
      (if inc then [QParam.category] else [])) = 0 := by
    cases inc <;> simp [List.countP_cons, List.countP_nil]
  have h2 : (List.countP (fun p => match p with | QParam.steamid _ => true | _ => false)
      (if optTruthy a then [QParam.after (a.getD "")] else [])) = 0 := by
    cases optTruthy a <;> simp [List.countP_cons, List.countP_nil]
  have h3 : (List.countP (fun p => match p with | QParam.steamid _ => true | _ => false)
      (if optTruthy b then [QParam.before (b.getD "")] else [])) = 0 := by
    cases optTruthy b <;> simp [List.countP_cons, List.countP_nil]
  rw [h1, h2, h3]
  simp [List.countP_cons, List.countP_nil, Function.comp, List.countP_true]

/-- C9: for every id sequence and positive batch size, `_chunk` partitions
the ids into consecutive chunks of length at most the cap, and every
request query built from a chunk carries exactly one `steamid=` parameter
per id — never more than the cap. -/
theorem fetch_respects_id_cap (seq : List Nat) (size : Nat) (hsz : 1 ≤ size) :
    (∀ c ∈ chunkList seq size, c.length ≤ size) ∧
    (chunkList seq size).flatten = seq ∧
    (∀ c ∈ chunkList seq size, ∀ (inc : Bool) (lim off : Nat) (a b : Option String),
      countIdParams (buildQuery c inc lim off a b) = c.length ∧
      countIdParams (buildQuery c inc lim off a b) ≤ size) := by
  have hsize : max 1 size - 1 + 1 = size := by omega
  refine ⟨?_, ?_, ?_⟩
  · intro c hc
    have := chunkPos_len_le (max 1 size - 1) seq c hc
    omega
  · exact chunkPos_flatten (max 1 size - 1) seq
  · intro c hc inc lim off a b
    have hlen := chunkPos_len_le (max 1 size - 1) seq c hc
    have hcount := countIdParams_buildQuery c inc lim off a b
    exact ⟨hcount, by omega⟩

theorem fetch_respects_id_cap_check :
    chunkList [1, 2, 3, 4, 5, 6, 7, 8, 9, 10, 11, 12, 13, 14, 15, 16, 17, 18, 19, 20, 21, 22, 23] 10 =
      [[1, 2, 3, 4, 5, 6, 7, 8, 9, 10], [11, 12, 13, 14, 15, 16, 17, 18, 19, 20], [21, 22, 23]] ∧
    countIdParams (buildQuery [1, 2, 3, 4, 5, 6, 7, 8, 9, 10] true 100 0 (some "2025-01-01") none) = 10 ∧
    countIdParams (buildQuery [21, 22, 23] true 100 0 none none) ≤ 10 := by
  have h := fetch_respects_id_cap [1, 2, 3, 4, 5, 6, 7, 8, 9, 10, 11, 12, 13, 14, 15, 16, 17, 18, 19, 20, 21, 22, 23] 10 (by omega)
  have hch : chunkList [1, 2, 3, 4, 5, 6, 7, 8, 9, 10, 11, 12, 13, 14, 15, 16, 17, 18, 19, 20, 21, 22, 23] 10 =
      [[1, 2, 3, 4, 5, 6, 7, 8, 9, 10], [11, 12, 13, 14, 15, 16, 17, 18, 19, 20], [21, 22, 23]] := by
    simp [chunkList, chunkPos]
  refine ⟨hch, ?_, ?_⟩
  · exact (h.2.2 [1, 2, 3, 4, 5, 6, 7, 8, 9, 10] (by rw [hch]; simp) true 100 0 (some "2025-01-01") none).1.trans (by decide)
  · exact (h.2.2 [21, 22, 23] (by rw [hch]; simp) true 100 0 none none).2

/-- C2: when the classified paginate attempt soft-fails with a server-side
status and the unclassified retry succeeds, `_fetch_chunk` returns nothing
at all if the lexicon is empty (fail-closed), and otherwise returns exactly
the fallback rows whose message contains a lexicon term. -/
theorem fetch_chunk_fails_closed
    (paginate : Bool → Bool × List MsgRow × Option String)
    (category : Option String) (lex : List String)
    (rows rows2 : List MsgRow) (st st2 : Option String)
    (hcat : optTruthy category = true)
    (h1 : paginate true = (false, rows, st))
    (hst : serverish st = true)
    (h2 : paginate false = (true, rows2, st2)) :
    (lex = [] → fetch_chunk paginate category lex = []) ∧
    (lex ≠ [] → fetch_chunk paginate category lex =
      rows2.filter fun r => text_contains_any ((r.message).getD "") lex) := by
  constructor
  · intro hlex
    simp [fetch_chunk, hcat, h1, hst, h2, hlex]
  · intro hlex
    simp [fetch_chunk, hcat, h1, hst, h2, List.isEmpty_eq_false.mpr hlex]

theorem fetch_chunk_fails_closed_check :
    fetch_chunk exPaginate (some "total") [] = [] ∧
    fetch_chunk exPaginate (some "total") ["bad"] = [{ message := some "you are bad" }] := by
  have h := fetch_chunk_fails_closed exPaginate (some "total") [] []
    [{ message := some "you are bad" }, { message := some "hello there" }]
    (some "500") none rfl rfl rfl rfl
  have h2 := fetch_chunk_fails_closed exPaginate (some "total") ["bad"] []
    [{ message := some "you are bad" }, { message := some "hello there" }]
    (some "500") none rfl rfl rfl rfl
  refine ⟨h.1 rfl, ?_⟩
  rw [h2.2 (by decide)]
  decide

theorem allowStep_foldl (search : List String → String → Bool)
    (allow lex : List String) :
    ∀ (rows : List MsgRow) (ks : List MsgRow) (ds : Nat),
      rows.foldl (allowStep search allow lex) (ks, ds) =
        (ks ++ rows.filter (allowKeep search allow lex),
         ds + rows.countP fun r => !allowKeep search allow lex r) := by
  intro rows
  induction rows with
  | nil => intro ks ds; simp
  | cons r rows ih =>
    intro ks ds
    rw [List.foldl_cons]
    by_cases hlex : lex ≠ [] ∧ search lex (filterMsg r) = true
    · have hkeep : allowKeep search allow lex r = true := by
        simp [allowKeep, hlex.1, hlex.2]
      have hstep : allowStep search allow lex (ks, ds) r = (ks ++ [r], ds) := by
        simp [allowStep, hlex]
      rw [hstep, ih]
      simp [List.filter_cons, List.countP_cons, hkeep]
    · by_cases hallow : search allow (filterMsg r) = true
      · have hkeep : allowKeep search allow lex r = false := by
          rcases Decidable.not_and_iff_or_not.mp hlex with h | h
          · have : lex = [] := by
              by_contra hne
              exact h hne
            simp [allowKeep, this, hallow]
          · simp [allowKeep, eq_false_of_ne_true h, hallow]
      -- wait: allowKeep false needs BOTH disjuncts false; first conjunctive part false from hlex, second !search = false from hallow
        have hstep : allowStep search allow lex (ks, ds) r = (ks, ds + 1) := by
          simp [allowStep, hlex, hallow]
        rw [hstep, ih]
        simp [List.filter_cons, List.countP_cons, hkeep]
        omega
      · have hkeep : allowKeep search allow lex r = true := by
          simp [allowKeep, eq_false_of_ne_true hallow]
        have hstep : allowStep search allow lex (ks, ds) r = (ks ++ [r], ds) := by
          simp [allowStep, hlex, hallow]
        rw [hstep, ih]
        simp [List.filter_cons, List.countP_cons, hkeep]

/-- C10: the allow/deny-list filter is a no-op unless `ALLOWLIST_DROP` is
enabled and the allow-list loaded non-empty; when both hold it keeps
exactly the rows that match a lexicon term (with a non-empty lexicon) or
match no allow-list term. -/
theorem allowlist_filter_default_noop (search : List String → String → Bool)
    (do_drop : Bool) (allow lex : List String) (rows : List MsgRow) :
    ((do_drop = false ∨ allow = []) →
      apply_allowlist_filter search do_drop allow lex rows =
        (rows, { enabled := false, allow_terms := allow.length,
                 lex_terms := lex.length, dropped := 0, kept := rows.length })) ∧
    (do_drop = true → allow ≠ [] →
      (apply_allowlist_filter search do_drop allow lex rows).1 =
        rows.filter (allowKeep search allow lex) ∧
      (apply_allowlist_filter search do_drop allow lex rows).2.dropped =
        rows.countP fun r => !allowKeep search allow lex r) := by
  constructor
  · intro h
    simp [apply_allowlist_filter, h]
  · intro hd ha
    have hcond : ¬(do_drop = false ∨ allow = []) := by
      rintro (h | h)
      · rw [hd] at h
        exact Bool.noConfusion h
      · exact ha h
    simp only [apply_allowlist_filter, if_neg hcond]
    rw [allowStep_foldl search allow lex rows [] 0]
    simp

theorem allowlist_filter_default_noop_check :
    apply_allowlist_filter (fun ws t => ws.any fun w => decide (List.IsInfix w.data t.data))
        false ["uwu"] [] [{ message := some "uwu hi" }] =
      ([{ message := some "uwu hi" }],
       { enabled := false, allow_terms := 1, lex_terms := 0, dropped := 0, kept := 1 }) ∧
    (apply_allowlist_filter (fun ws t => ws.any fun w => decide (List.IsInfix w.data t.data))
        true ["uwu"] [] [{ message := some "uwu hi" }, { message := some "plain" }]).1 =
      [{ message := some "plain" }] := by
  have h1 := (allowlist_filter_default_noop
    (fun ws t => ws.any fun w => decide (List.IsInfix w.data t.data))
    false ["uwu"] [] [{ message := some "uwu hi" }]).1 (Or.inl rfl)
  have h2 := (allowlist_filter_default_noop
    (fun ws t => ws.any fun w => decide (List.IsInfix w.data t.data))
    true ["uwu"] [] [{ message := some "uwu hi" }, { message := some "plain" }]).2 rfl (by decide)
  refine ⟨h1, ?_⟩
  rw [h2.1]
  decide

theorem upsertStep_valid_new (r : MsgRow) (ins skip : Nat) (tbl : List MsgRec)
    (hv1 : pyIsdigit (rowSid r) = true) (hv2 : (rowSid r).length = 17)
    (hv3 : rowIso r ≠ "") (hv4 : optTruthy (rowText r) = true)
    (hfresh : ∀ m ∈ tbl, m.hash_key ≠ rowKey r) :
    upsertStep (ins, skip, tbl) r = (ins + 1, skip, tbl ++ [mkMsgRec r]) := by
  have hany : (tbl.any fun m => m.hash_key == rowKey r) = false := by
    rw [List.any_eq_false]
    intro m hm
    simpa using hfresh m hm
  simp [upsertStep, hv1, hv2, hv3, hv4, hany]

theorem upsertStep_valid_dup (r : MsgRow) (ins skip : Nat) (tbl : List MsgRec)
    (hv1 : pyIsdigit (rowSid r) = true) (hv2 : (rowSid r).length = 17)
    (hv3 : rowIso r ≠ "") (hv4 : optTruthy (rowText r) = true)
    (hdup : ∃ m ∈ tbl, m.hash_key = rowKey r) :
    upsertStep (ins, skip, tbl) r = (ins, skip, tbl) := by
  have hany : (tbl.any fun m => m.hash_key == rowKey r) = true := by
    rw [List.any_eq_true]
    obtain ⟨m, hm, hk⟩ := hdup
    exact ⟨m, hm, by simpa using hk⟩
  simp [upsertStep, hv1, hv2, hv3, hv4, hany]

/-- C1: ingesting a validated row twice — in one call or across two
consecutive calls — leaves exactly one stored record under its dedupe key
`hash(canonical_id | timestamp | text)` and reports `inserted = 1` in
total; the second insert is a no-op. -/
theorem upsert_messages_idempotent (r : MsgRow) (tbl : List MsgRec)
    (hv1 : pyIsdigit (rowSid r) = true) (hv2 : (rowSid r).length = 17)
    (hv3 : rowIso r ≠ "") (hv4 : optTruthy (rowText r) = true)
    (hfresh : ∀ m ∈ tbl, m.hash_key ≠ rowKey r) :
    upsert_messages [r, r] tbl = (1, 0, tbl ++ [mkMsgRec r]) ∧
    ((upsert_messages [r, r] tbl).2.2.filter fun m => m.hash_key == rowKey r) = [mkMsgRec r] ∧
    upsert_messages [r] tbl = (1, 0, tbl ++ [mkMsgRec r]) ∧
    upsert_messages [r] (tbl ++ [mkMsgRec r]) = (0, 0, tbl ++ [mkMsgRec r]) := by
  have hdup : ∃ m ∈ tbl ++ [mkMsgRec r], m.hash_key = rowKey r :=
    ⟨mkMsgRec r, List.mem_append_right tbl (List.mem_singleton_self _), rfl⟩
  have h1 : upsert_messages [r, r] tbl = (1, 0, tbl ++ [mkMsgRec r]) := by
    unfold upsert_messages
    rw [List.foldl_cons, upsertStep_valid_new r 0 0 tbl hv1 hv2 hv3 hv4 hfresh,
      List.foldl_cons, upsertStep_valid_dup r 1 0 (tbl ++ [mkMsgRec r]) hv1 hv2 hv3 hv4 hdup]
    rfl
  refine ⟨h1, ?_, ?_, ?_⟩
  · rw [h1]
    simp only [List.filter_append]
    have hl : tbl.filter (fun m => m.hash_key == rowKey r) = [] := by
      rw [List.filter_eq_nil_iff]
      intro m hm
      simpa using hfresh m hm
    rw [hl]
    simp [mkMsgRec]
  · unfold upsert_messages
    rw [List.foldl_cons, upsertStep_valid_new r 0 0 tbl hv1 hv2 hv3 hv4 hfresh]
    rfl
  · unfold upsert_messages
    rw [List.foldl_cons, upsertStep_valid_dup r 0 0 (tbl ++ [mkMsgRec r]) hv1 hv2 hv3 hv4 hdup]
    rfl

theorem upsert_messages_idempotent_check :
    upsert_messages [exRow, exRow] [] = (1, 0, [mkMsgRec exRow]) ∧
    upsert_messages [exRow] [] = (1, 0, [mkMsgRec exRow]) ∧
    upsert_messages [exRow] [mkMsgRec exRow] = (0, 0, [mkMsgRec exRow]) ∧
    (mkMsgRec exRow).hash_key = "76561197960265729|2025-01-01T00:00:00Z|hello" := by
  have h := upsert_messages_idempotent exRow [] (by decide) (by decide) (by decide) (by decide)
    (by intro m hm; exact absurd hm (List.not_mem_nil m))
  exact ⟨h.1, by simpa using h.2.2.1, by simpa using h.2.2.2, by decide⟩

theorem upsertStep_shift (r : MsgRow) (i s : Nat) (tbl : List MsgRec) :
    upsertStep (i, s, tbl) r =
      ((upsertStep (0, 0, tbl) r).1 + i, (upsertStep (0, 0, tbl) r).2.1 + s,
       (upsertStep (0, 0, tbl) r).2.2) := by
  by_cases h1 : pyIsdigit (rowSid r) = true ∧ (rowSid r).length = 17
  · by_cases h2 : rowIso r = "" ∨ optTruthy (rowText r) = false
    · simp [upsertStep, h1.1, h1.2, h2, Nat.add_comm]
    · by_cases h3 : (tbl.any fun m => m.hash_key == rowKey r) = true
      · simp [upsertStep, h1.1, h1.2, h2, h3, Nat.add_comm]
      · simp [upsertStep, h1.1, h1.2, h2, h3, Nat.add_comm]
  · simp [upsertStep, h1, Nat.add_comm]

theorem upsert_messages_shift : ∀ (rows : List MsgRow) (i s : Nat) (tbl : List MsgRec),
    rows.foldl upsertStep (i, s, tbl) =
      ((rows.foldl upsertStep (0, 0, tbl)).1 + i,
       (rows.foldl upsertStep (0, 0, tbl)).2.1 + s,
       (rows.foldl upsertStep (0, 0, tbl)).2.2) := by
  intro rows
  induction rows with
  | nil => intro i s tbl; simp
  | cons r rows ih =>
    intro i s tbl
    rw [List.foldl_cons, List.foldl_cons]
    rw [upsertStep_shift r i s tbl]
    rcases hu : upsertStep (0, 0, tbl) r with ⟨d1, d2, t'⟩
    rw [ih (d1 + i) (d2 + s) t', ih d1 d2 t']
    refine Prod.ext ?_ (Prod.ext ?_ rfl) <;> simp <;> omega

theorem upsertStep_invalid (r : MsgRow) (i s : Nat) (tbl : List MsgRec)
    (hbad : ¬(pyIsdigit (rowSid r) = true ∧ (rowSid r).length = 17) ∨
            rowIso r = "" ∨ optTruthy (rowText r) = false) :
    upsertStep (i, s, tbl) r = (i, s + 1, tbl) := by
  by_cases h1 : pyIsdigit (rowSid r) = true ∧ (rowSid r).length = 17
  · have h2 : rowIso r = "" ∨ optTruthy (rowText r) = false := by
      rcases hbad with h | h | h
      · exact absurd h1 h
      · exact Or.inl h
      · exact Or.inr h
    simp [upsertStep, h1.1, h1.2, h2]
  · simp [upsertStep, h1]

theorem insert_raw_rows_go : ∀ (rows : List MsgRow) (n : Nat) (raw : List RawRec),
    rows.foldl (fun st r => (st.1 + 1, st.2 ++ [rawRec r])) (n, raw) =
      (n + rows.length, raw ++ rows.map rawRec) := by
  intro rows
  induction rows with
  | nil => intro n raw; simp
  | cons r rows ih =>
    intro n raw
    rw [List.foldl_cons, ih]
    refine Prod.ext ?_ ?_ <;> simp
    omega

/-- C7: a fetched row without a 17-digit numeric canonical id, or with an
empty timestamp or empty text, is counted and skipped by the validated
upsert (no insert, no exception, surrounding rows unaffected), while the
raw audit insert persists every row — including that one — verbatim and
without deduplication. -/
theorem invalid_rows_skipped_raw_kept (r : MsgRow) (pre post : List MsgRow)
    (tbl : List MsgRec) (raw : List RawRec)
    (hbad : ¬(pyIsdigit (rowSid r) = true ∧ (rowSid r).length = 17) ∨
            rowIso r = "" ∨ optTruthy (rowText r) = false) :
    upsert_messages (pre ++ r :: post) tbl =
      ((upsert_messages pre tbl).1 +
         (upsert_messages post (upsert_messages pre tbl).2.2).1,
       (upsert_messages pre tbl).2.1 +
         (upsert_messages post (upsert_messages pre tbl).2.2).2.1 + 1,
       (upsert_messages post (upsert_messages pre tbl).2.2).2.2) ∧
    insert_raw_rows (pre ++ r :: post) raw =
      ((pre ++ r :: post).length, raw ++ (pre ++ r :: post).map rawRec) ∧
    rawRec r ∈ (insert_raw_rows (pre ++ r :: post) raw).2 := by
  refine ⟨?_, ?_, ?_⟩
  · unfold upsert_messages
    rw [List.foldl_append, List.foldl_cons]
    rcases hP : List.foldl upsertStep (0, 0, tbl) pre with ⟨i1, s1, t1⟩
    rw [upsertStep_invalid r i1 s1 t1 hbad]
    rw [upsert_messages_shift post i1 (s1 + 1) t1]
    refine Prod.ext ?_ (Prod.ext ?_ rfl) <;> simp <;> omega
  · unfold insert_raw_rows
    rw [insert_raw_rows_go]
    simp
  · unfold insert_raw_rows
    rw [insert_raw_rows_go]
    simp

theorem invalid_rows_skipped_raw_kept_check :
    upsert_messages [exRowNoTs] [] = (0, 1, []) ∧
    insert_raw_rows [exRowNoTs] [] = (1, [rawRec exRowNoTs]) ∧
    (rawRec exRowNoTs).logdate_txt = none ∧
    (rawRec exRowNoTs).text = some "hello" := by
  have h := invalid_rows_skipped_raw_kept exRowNoTs [] [] [] []
    (Or.inr (Or.inl (by decide)))
  refine ⟨?_, ?_, by decide, by decide⟩
  · have h1 := h.1
    simpa using h1
  · have h2 := h.2.1
    simpa using h2

theorem ozStep_inv (r : OzRow) (acc : Nat × List OzPlayer) (k : Nat) (Q : String → Prop)
    (hQr : ∀ s, r.steamid64 = some s → optTruthy r.steamid64 = true → Q s)
    (h : ∃ q ∈ acc.2, q.oz_id = k ∧ ∃ w, q.steamid64 = some w ∧ Q w) :
    ∃ q ∈ (upsertOzStep acc r).2, q.oz_id = k ∧ ∃ w, q.steamid64 = some w ∧ Q w := by
  obtain ⟨q, hq, hqk, w, hw, hQ⟩ := h
  by_cases ht : optTruthy r.steamid64 = false
  · refine ⟨q, ?_, hqk, w, hw, hQ⟩
    simp [upsertOzStep, ht]
    exact hq
  · have ht' : optTruthy r.steamid64 = true := by
      cases hc : optTruthy r.steamid64
      · exact absurd hc ht
      · rfl
    obtain ⟨sv, hsv⟩ : ∃ sv, r.steamid64 = some sv := by
      cases hc : r.steamid64 with
      | none => rw [hc] at ht'; exact absurd ht' (by simp [optTruthy])
      | some sv => exact ⟨sv, rfl⟩
    have hstep : (upsertOzStep acc r).2 =
        (if acc.2.any fun t => t.oz_id == r.oz_id then
          acc.2.map fun t => if t.oz_id == r.oz_id then ozMerge r t else t
        else acc.2 ++ [ozInsert r]) := by
      simp [upsertOzStep, ht']
    rw [hstep]
    by_cases hany : (acc.2.any fun t => t.oz_id == r.oz_id) = true
    · rw [if_pos hany]
      by_cases hk : q.oz_id = r.oz_id
      · refine ⟨ozMerge r q, ?_, ?_, sv, ?_, hQr sv hsv ht'⟩
        · have := List.mem_map_of_mem (fun t => if t.oz_id == r.oz_id then ozMerge r t else t) hq
          simpa [hk] using this
        · simp [ozMerge, hqk]
        · simp [ozMerge, coalesce, hsv]
      · refine ⟨q, ?_, hqk, w, hw, hQ⟩
        have := List.mem_map_of_mem (fun t => if t.oz_id == r.oz_id then ozMerge r t else t) hq
        simpa [hk] using this
    · rw [if_neg hany]
      exact ⟨q, List.mem_append_left _ hq, hqk, w, hw, hQ⟩

theorem oz_fold_inv (v : String) (rowsAll : List OzRow) :
    ∀ (rows : List OzRow), (∀ r ∈ rows, r ∈ rowsAll) → ∀ (acc : Nat × List OzPlayer) (k : Nat),
      (∃ q ∈ acc.2, q.oz_id = k ∧ ∃ w, q.steamid64 = some w ∧
        (w = v ∨ ∃ r ∈ rowsAll, r.steamid64 = some w)) →
      ∃ q ∈ (rows.foldl upsertOzStep acc).2, q.oz_id = k ∧ ∃ w, q.steamid64 = some w ∧
        (w = v ∨ ∃ r ∈ rowsAll, r.steamid64 = some w) := by
  intro rows
  induction rows with
  | nil => intro _ acc k h; exact h
  | cons r rows ih =>
    intro hsub acc k h
    rw [List.foldl_cons]
    refine ih (fun x hx => hsub x (List.mem_cons_of_mem r hx)) (upsertOzStep acc r) k ?_
    refine ozStep_inv r acc k _ ?_ h
    intro s hs _
    exact Or.inr ⟨r, hsub r (List.mem_cons_self r rows), hs⟩

/-- C8: the roster upsert never overwrites a non-null canonical id with
null — after any `upsert_oz_players` call, an entry that had
`steamid64 = some v` still has a non-null `steamid64`, equal to its old
value or to a steamid brought by one of the incoming rows. -/
theorem oz_steamid_never_nulled (rows : List OzRow) (tbl : List OzPlayer)
    (p : OzPlayer) (hp : p ∈ tbl) (v : String) (hv : p.steamid64 = some v) :
    ∃ q ∈ (upsert_oz_players tbl rows).2, q.oz_id = p.oz_id ∧
      ∃ w, q.steamid64 = some w ∧ (w = v ∨ ∃ r ∈ rows, r.steamid64 = some w) :=
  oz_fold_inv v rows rows (fun _ h => h) (0, tbl) p.oz_id
    ⟨p, hp, rfl, v, hv, Or.inl rfl⟩

theorem oz_steamid_never_nulled_check :
    ∃ q ∈ (upsert_oz_players
        [{ oz_id := 7, steamid64 := some "76561197960265801", current_name := "old",
           oz_profile_url := none, steam_profile_url := none }]
        [{ oz_id := 7, steamid64 := some "76561197960265802", current_name := some "new",
           oz_profile_url := none, steam_profile_url := none }]).2,
      q.oz_id = 7 ∧ ∃ w, q.steamid64 = some w ∧
        (w = "76561197960265801" ∨
         ∃ r ∈ ([{ oz_id := 7, steamid64 := some "76561197960265802", current_name := some "new",
                   oz_profile_url := none, steam_profile_url := none }] : List OzRow),
           r.steamid64 = some w) :=
  oz_steamid_never_nulled
    [{ oz_id := 7, steamid64 := some "76561197960265802", current_name := some "new",
       oz_profile_url := none, steam_profile_url := none }]
    [{ oz_id := 7, steamid64 := some "76561197960265801", current_name := "old",
       oz_profile_url := none, steam_profile_url := none }]
    { oz_id := 7, steamid64 := some "76561197960265801", current_name := "old",
      oz_profile_url := none, steam_profile_url := none }
    (List.mem_singleton_self _) "76561197960265801" rfl

/-- C3 counterexample: with the stored maximum at 3 and a transport failure
on the very first probed id (4), `refresh` raises (returns the exception)
instead of swallowing the failure — it does not continue with the next id
and never returns its `(checked, changed)` counts. -/
theorem refresh_error_not_swallowed_cex :
    refresh exFetchErr exTbl3 300 20 = Except.error () ∧
    ¬∃ res : Nat × Nat × List OzPlayer,
        refresh exFetchErr exTbl3 300 20 = Except.ok res := by
  refine ⟨rfl, ?_⟩
  rintro ⟨res, h⟩
  rw [show refresh exFetchErr exTbl3 300 20 = Except.error () from rfl] at h
  exact Except.noConfusion h

/-- C3 amended: a probe transport failure (non-404 error status or
connection/timeout failure) is not swallowed: `raise_for_status` makes the
iteration raise, the exception propagates out of `refresh`, the scan stops
there, and no counts are returned.  The failing probe is counted neither
as found nor toward the not-found streak (the counters die with the
exception before being updated). -/
theorem refresh_error_propagates :
    (∀ (fetch : Nat → HttpOutcome) (base stopT rem streak checked changed : Nat)
        (tbl : List OzPlayer),
      fetch (base + checked + 1) = HttpOutcome.failure →
      refreshGo fetch base stopT (rem + 1) streak checked changed tbl = Except.error ()) ∧
    (∀ (fetch : Nat → HttpOutcome) (tbl : List OzPlayer) (M T : Nat),
      1 ≤ M → fetch (get_max_oz_id tbl + 1) = HttpOutcome.failure →
      refresh fetch tbl M T = Except.error ()) := by
  have hgo : ∀ (fetch : Nat → HttpOutcome) (base stopT rem streak checked changed : Nat)
      (tbl : List OzPlayer),
      fetch (base + checked + 1) = HttpOutcome.failure →
      refreshGo fetch base stopT (rem + 1) streak checked changed tbl = Except.error () := by
    intro fetch base stopT rem streak checked changed tbl h
    rw [refreshGo]
    simp [probe_user, h]
  refine ⟨hgo, ?_⟩
  intro fetch tbl M T hM h
  obtain ⟨m, rfl⟩ : ∃ m, M = m + 1 := ⟨M - 1, by omega⟩
  unfold refresh
  exact hgo fetch (get_max_oz_id tbl) T m 0 0 0 tbl (by simpa using h)

theorem refresh_error_propagates_check :
    refreshGo (fun _ => HttpOutcome.failure) 0 20 1 0 0 0 [] = Except.error () ∧
    refresh (fun _ => HttpOutcome.failure) [] 5 20 = Except.error () :=
  ⟨refresh_error_propagates.1 (fun _ => HttpOutcome.failure) 0 20 0 0 0 0 [] rfl,
   refresh_error_propagates.2 (fun _ => HttpOutcome.failure) [] 5 20 (by omega) rfl⟩

/-- C4 counterexample: with stored maximum 3, budget 2 and threshold 1, a
2xx profile page with no canonical identifier on id 4 makes the refresher
stop after one probe with nothing stored (`checked = 1`, `changed = 0`,
table unchanged): the streak was incremented, not reset, and no upsert
happened — and `upsert_oz_players` itself skips a row without a steamid,
so such a "found" page is never stored. -/
theorem refresh_found_without_sid_cex :
    refresh exFetchNoSid exTbl3 2 1 = Except.ok (1, 0, exTbl3) ∧
    upsert_oz_players exTbl3
      [{ oz_id := 4, steamid64 := none, current_name := some "Bob",
         oz_profile_url := some "https://ozfortress.com/users/4",
         steam_profile_url := none }] = (0, exTbl3) :=
  ⟨rfl, rfl⟩

/-- C4 amended: only a probe whose parsed record carries a truthy
`steamid64` resets the not-found streak to 0 and is upserted immediately
(before the next probe); a 2xx page without a canonical identifier is
treated like a 404 — it increments the streak and stores nothing. -/
theorem refresh_found_sid_behavior
    (fetch : Nat → HttpOutcome) (base T rem streak checked changed : Nat)
    (tbl : List OzPlayer) (hT : 1 ≤ T) (pr : OzRow)
    (hpr : probe_user fetch (base + checked + 1) = Except.ok pr) :
    (optTruthy pr.steamid64 = true →
      refreshGo fetch base T (rem + 1) streak checked changed tbl =
        refreshGo fetch base T rem 0 (checked + 1)
          (changed + (upsert_oz_players tbl [pr]).1) (upsert_oz_players tbl [pr]).2 ∧
      ∃ q ∈ (upsert_oz_players tbl [pr]).2,
        q.oz_id = pr.oz_id ∧ q.steamid64 = pr.steamid64) ∧
    (optTruthy pr.steamid64 = false →
      refreshGo fetch base T (rem + 1) streak checked changed tbl =
        (if T ≤ streak + 1 then Except.ok (checked + 1, changed, tbl)
         else refreshGo fetch base T rem (streak + 1) (checked + 1) changed tbl) ∧
      upsert_oz_players tbl [pr] = (0, tbl)) := by
  constructor
  · intro hsid
    obtain ⟨sv, hsv⟩ : ∃ sv, pr.steamid64 = some sv := by
      cases hc : pr.steamid64 with
      | none => rw [hc] at hsid; exact absurd hsid (by simp [optTruthy])
      | some sv => exact ⟨sv, rfl⟩
    constructor
    · rw [refreshGo, hpr]
      simp only [hsid, if_true]
      rcases hu : upsert_oz_players tbl [pr] with ⟨n, tbl'⟩
      have hT0 : ¬(T ≤ 0) := by omega
      simp [hu, hT0]
    · have hone : upsert_oz_players tbl [pr] = upsertOzStep (0, tbl) pr := by
        simp [upsert_oz_players]
      rw [hone]
      have hstep : (upsertOzStep (0, tbl) pr).2 =
          (if tbl.any fun t => t.oz_id == pr.oz_id then
            tbl.map fun t => if t.oz_id == pr.oz_id then ozMerge pr t else t
          else tbl ++ [ozInsert pr]) := by
        simp [upsertOzStep, hsid]
      rw [hstep]
      by_cases hany : (tbl.any fun t => t.oz_id == pr.oz_id) = true
      · rw [if_pos hany]
        obtain ⟨t, ht, htk⟩ := List.any_eq_true.mp hany
        have htk' : t.oz_id = pr.oz_id := by simpa using htk
        refine ⟨ozMerge pr t, ?_, ?_, ?_⟩
        · have := List.mem_map_of_mem (fun t => if t.oz_id == pr.oz_id then ozMerge pr t else t) ht
          simpa [htk'] using this
        · simp [ozMerge, htk']
        · simp [ozMerge, coalesce, hsv]
      · rw [if_neg hany]
        refine ⟨ozInsert pr, List.mem_append_right _ (List.mem_singleton_self _), rfl, ?_⟩
        simp [ozInsert, hsv]
  · intro hsid
    constructor
    · rw [refreshGo, hpr]
      simp [hsid]
    · simp [upsert_oz_players, upsertOzStep, hsid]

theorem refresh_found_sid_behavior_check :
    (refreshGo exFetchSid 0 20 4 0 0 0 [] =
      refreshGo exFetchSid 0 20 3 0 1 (0 + (upsert_oz_players [] [exPr]).1)
        (upsert_oz_players [] [exPr]).2 ∧
     ∃ q ∈ (upsert_oz_players [] [exPr]).2,
       q.oz_id = exPr.oz_id ∧ q.steamid64 = exPr.steamid64) ∧
    (refreshGo exFetchNF 0 20 4 0 0 0 [] =
      (if 20 ≤ 0 + 1 then Except.ok (0 + 1, 0, ([] : List OzPlayer))
       else refreshGo exFetchNF 0 20 3 (0 + 1) (0 + 1) 0 []) ∧
     upsert_oz_players [] [exPr404] = (0, [])) := by
  have hpr1 : probe_user exFetchSid (0 + 0 + 1) = Except.ok exPr := by
    simp [probe_user, exFetchSid, pyStrip, stripTags, exPr]
    exact ⟨by decide, by decide⟩
  have hpr2 : probe_user exFetchNF (0 + 0 + 1) = Except.ok exPr404 := rfl
  constructor
  · exact (refresh_found_sid_behavior exFetchSid 0 20 3 0 0 0 [] (by omega) exPr hpr1).1 rfl
  · exact (refresh_found_sid_behavior exFetchNF 0 20 3 0 0 0 [] (by omega) exPr404 hpr2).2 rfl

theorem streakFrom_shift (fetch : Nat → HttpOutcome) (start s : Nat) :
    ∀ k, streakFrom fetch start s (k + 1) =
      streakFrom fetch (start + 1)
        (if outcomeNoSid (fetch (start + 1)) then s + 1 else 0) k := by
  intro k
  induction k with
  | zero => simp [streakFrom]
  | succ k ih =>
    conv_lhs => rw [streakFrom]
    conv_rhs => rw [streakFrom]
    rw [ih]
    have hpos : start + (k + 1) + 1 = start + 1 + k + 1 := by omega
    rw [hpos]

theorem probe_user_isOk (fetch : Nat → HttpOutcome) (uid : Nat)
    (h : fetch uid ≠ HttpOutcome.failure) :
    ∃ pr, probe_user fetch uid = Except.ok pr := by
  cases hf : fetch uid with
  | failure => exact absurd hf h
  | notFound => exact ⟨_, by unfold probe_user; rw [hf]⟩
  | success sid h1 => exact ⟨_, by unfold probe_user; rw [hf]⟩

theorem probe_user_sid (fetch : Nat → HttpOutcome) (uid : Nat) (pr : OzRow)
    (h : probe_user fetch uid = Except.ok pr) :
    optTruthy pr.steamid64 = !outcomeNoSid (fetch uid) := by
  cases hf : fetch uid with
  | failure =>
    unfold probe_user at h
    rw [hf] at h
    exact absurd h (by simp)
  | notFound =>
    unfold probe_user at h
    rw [hf] at h
    cases h
    simp [optTruthy, outcomeNoSid]
  | success sid h1 =>
    unfold probe_user at h
    rw [hf] at h
    cases h
    simp [outcomeNoSid]

theorem probe_user_congr (fetch fetch2 : Nat → HttpOutcome) (uid : Nat)
    (h : fetch2 uid = fetch uid) :
    probe_user fetch2 uid = probe_user fetch uid := by
  unfold probe_user
  rw [h]

theorem refreshGo_char (fetch : Nat → HttpOutcome) (base T : Nat) (hT : 1 ≤ T) :
    ∀ (rem s checked changed : Nat) (tbl : List OzPlayer),
      s < T →
      (∀ j < rem, fetch (base + checked + j + 1) ≠ HttpOutcome.failure) →
      ∃ n chg tbl',
        refreshGo fetch base T rem s checked changed tbl =
          Except.ok (checked + n, chg, tbl') ∧
        n ≤ rem ∧
        (n = rem ∨ T ≤ streakFrom fetch (base + checked) s n) ∧
        (∀ m < n, streakFrom fetch (base + checked) s m < T) := by
  intro rem
  induction rem with
  | zero =>
    intro s checked changed tbl hs _
    exact ⟨0, changed, tbl, rfl, Nat.le_refl 0, Or.inl rfl,
      fun m hm => absurd hm (Nat.not_lt_zero m)⟩
  | succ rem ih =>
    intro s checked changed tbl hs hne
    have hne0 : fetch (base + checked + 1) ≠ HttpOutcome.failure := by
      have h := hne 0 (Nat.succ_pos rem)
      simpa using h
    obtain ⟨pr, hpr⟩ := probe_user_isOk fetch (base + checked + 1) hne0
    have hsid := probe_user_sid fetch (base + checked + 1) pr hpr
    have hne' : ∀ j < rem, fetch (base + (checked + 1) + j + 1) ≠ HttpOutcome.failure := by
      intro j hj
      have h := hne (j + 1) (by omega)
      have hpos : base + checked + (j + 1) + 1 = base + (checked + 1) + j + 1 := by omega
      rw [hpos] at h
      exact h
    rw [refreshGo, hpr]
    cases hns : outcomeNoSid (fetch (base + checked + 1)) with
    | false =>
      have hsid' : optTruthy pr.steamid64 = true := by rw [hsid, hns]; rfl
      simp only [hsid', if_true]
      rcases hu : upsert_oz_players tbl [pr] with ⟨n₀, tbl₀⟩
      have hT0 : ¬(T ≤ 0) := by omega
      rw [if_neg hT0]
      obtain ⟨n', chg, tbl', heq, hle, hd, hlt⟩ :=
        ih 0 (checked + 1) (changed + n₀) tbl₀ (by omega) hne'
      have hshift : ∀ m, streakFrom fetch (base + checked) s (m + 1) =
          streakFrom fetch (base + checked + 1) 0 m := by
        intro m
        rw [streakFrom_shift, hns]
        simp
      refine ⟨n' + 1, chg, tbl', ?_, by omega, ?_, ?_⟩
      · rw [show checked + (n' + 1) = checked + 1 + n' from by omega]
        exact heq
      · rcases hd with hd | hd
        · exact Or.inl (by omega)
        · right
          rw [hshift n']
          exact hd
      · intro m hm
        cases m with
        | zero =>
          have h0 : streakFrom fetch (base + checked) s 0 = s := rfl
          rw [h0]
          exact hs
        | succ m' =>
          rw [hshift m']
          exact hlt m' (by omega)
    | true =>
      have hsid' : optTruthy pr.steamid64 = false := by rw [hsid, hns]; rfl
      simp only [hsid', Bool.false_eq_true, if_false]
      have hshift : ∀ m, streakFrom fetch (base + checked) s (m + 1) =
          streakFrom fetch (base + checked + 1) (s + 1) m := by
        intro m
        rw [streakFrom_shift, hns]
        simp
      by_cases hstop : T ≤ s + 1
      · rw [if_pos hstop]
        have hone : streakFrom fetch (base + checked) s 1 = s + 1 := by
          rw [hshift 0]
          rfl
        refine ⟨1, changed, tbl, rfl, by omega, Or.inr (by rw [hone]; exact hstop), ?_⟩
        intro m hm
        have hm0 : m = 0 := by omega
        subst hm0
        exact hs
      · rw [if_neg hstop]
        obtain ⟨n', chg, tbl', heq, hle, hd, hlt⟩ :=
          ih (s + 1) (checked + 1) changed tbl (by omega) hne'
        refine ⟨n' + 1, chg, tbl', ?_, by omega, ?_, ?_⟩
        · rw [show checked + (n' + 1) = checked + 1 + n' from by omega]
          exact heq
        · rcases hd with hd | hd
          · exact Or.inl (by omega)
          · right
            rw [hshift n']
            exact hd
        · intro m hm
          cases m with
          | zero => exact hs
          | succ m' =>
            rw [hshift m']
            exact hlt m' (by omega)

theorem refreshGo_checked_le (fetch : Nat → HttpOutcome) (base T : Nat) :
    ∀ (rem s c g : Nat) (tbl : List OzPlayer) (ch chg : Nat) (tbl' : List OzPlayer),
      refreshGo fetch base T rem s c g tbl = Except.ok (ch, chg, tbl') → c ≤ ch := by
  intro rem
  induction rem with
  | zero =>
    intro s c g tbl ch chg tbl' h
    rw [refreshGo] at h
    simp only [Except.ok.injEq, Prod.mk.injEq] at h
    omega
  | succ rem ih =>
    intro s c g tbl ch chg tbl' h
    rw [refreshGo] at h
    cases hpu : probe_user fetch (base + c + 1) with
    | error e =>
      rw [hpu] at h
      exact absurd h (by simp)
    | ok pr =>
      rw [hpu] at h
      by_cases hsid : optTruthy pr.steamid64 = true
      · simp only [hsid, if_true] at h
        rcases hu : upsert_oz_players tbl [pr] with ⟨n₀, tbl₀⟩
        rw [hu] at h
        by_cases hT0 : T ≤ 0
        · rw [if_pos hT0] at h
          simp only [Except.ok.injEq, Prod.mk.injEq] at h
          omega
        · rw [if_neg hT0] at h
          have := ih 0 (c + 1) (g + n₀) tbl₀ ch chg tbl' h
          omega
      · have hsid' : optTruthy pr.steamid64 = false := by
          cases hc : optTruthy pr.steamid64
          · rfl
          · exact absurd hc hsid
        simp only [hsid', Bool.false_eq_true, if_false] at h
        by_cases hstop : T ≤ s + 1
        · rw [if_pos hstop] at h
          simp only [Except.ok.injEq, Prod.mk.injEq] at h
          omega
        · rw [if_neg hstop] at h
          have := ih (s + 1) (c + 1) g tbl ch chg tbl' h
          omega

theorem refreshGo_congr (base T : Nat) :
    ∀ (rem s c g : Nat) (tbl : List OzPlayer) (fetch fetch2 : Nat → HttpOutcome)
      (ch chg : Nat) (tbl' : List OzPlayer),
      refreshGo fetch base T rem s c g tbl = Except.ok (ch, chg, tbl') →
      (∀ j, c < j → j ≤ ch → fetch2 (base + j) = fetch (base + j)) →
      refreshGo fetch2 base T rem s c g tbl = Except.ok (ch, chg, tbl') := by
  intro rem
  induction rem with
  | zero =>
    intro s c g tbl fetch fetch2 ch chg tbl' h _
    exact h
  | succ rem ih =>
    intro s c g tbl fetch fetch2 ch chg tbl' h hag
    rw [refreshGo] at h ⊢
    cases hpu : probe_user fetch (base + c + 1) with
    | error e =>
      rw [hpu] at h
      exact absurd h (by simp)
    | ok pr =>
      rw [hpu] at h
      have hch : c + 1 ≤ ch := by
        by_cases hsid : optTruthy pr.steamid64 = true
        · simp only [hsid, if_true] at h
          rcases hu : upsert_oz_players tbl [pr] with ⟨n₀, tbl₀⟩
          rw [hu] at h
          by_cases hT0 : T ≤ 0
          · rw [if_pos hT0] at h
            simp only [Except.ok.injEq, Prod.mk.injEq] at h
            omega
          · rw [if_neg hT0] at h
            exact refreshGo_checked_le fetch base T rem 0 (c + 1) (g + n₀) tbl₀ ch chg tbl' h
        · have hsid' : optTruthy pr.steamid64 = false := by
            cases hc : optTruthy pr.steamid64
            · rfl
            · exact absurd hc hsid
          simp only [hsid', Bool.false_eq_true, if_false] at h
          by_cases hstop : T ≤ s + 1
          · rw [if_pos hstop] at h
            simp only [Except.ok.injEq, Prod.mk.injEq] at h
            omega
          · rw [if_neg hstop] at h
            exact refreshGo_checked_le fetch base T rem (s + 1) (c + 1) g tbl ch chg tbl' h
      have hagree1 : fetch2 (base + c + 1) = fetch (base + c + 1) := by
        have := hag (c + 1) (by omega) hch
        simpa [Nat.add_assoc] using this
      rw [probe_user_congr fetch fetch2 (base + c + 1) hagree1, hpu]
      have hag' : ∀ j, c + 1 < j → j ≤ ch → fetch2 (base + j) = fetch (base + j) := by
        intro j h1 h2
        exact hag j (by omega) h2
      by_cases hsid : optTruthy pr.steamid64 = true
      · simp only [hsid, if_true] at h ⊢
        rcases hu : upsert_oz_players tbl [pr] with ⟨n₀, tbl₀⟩
        rw [hu] at h
        by_cases hT0 : T ≤ 0
        · rw [if_pos hT0] at h ⊢
          exact h
        · rw [if_neg hT0] at h ⊢
          exact ih 0 (c + 1) (g + n₀) tbl₀ fetch fetch2 ch chg tbl' h hag'
      · have hsid' : optTruthy pr.steamid64 = false := by
          cases hc : optTruthy pr.steamid64
          · rfl
          · exact absurd hc hsid
        simp only [hsid', Bool.false_eq_true, if_false] at h ⊢
        by_cases hstop : T ≤ s + 1
        · rw [if_pos hstop] at h ⊢
          exact h
        · rw [if_neg hstop] at h ⊢
          exact ih (s + 1) (c + 1) g tbl fetch fetch2 ch chg tbl' h hag'

/-- C5: starting from the stored maximum `B = get_max_oz_id tbl`, with
probe budget `M ≥ 1` and threshold `T ≥ 1`, and probes answering only
"not found" or "found with steamid", `refresh` terminates normally with a
`checked` count that is exactly the first probe index at which the
consecutive not-found streak reaches `T` or the budget `M` runs out
(`checked ≤ M`; a streak of `T` at `checked` unless `checked = M`; no
earlier index reaches it), and its result depends only on the probes of
ids `B + 1 .. B + checked` — each consulted id lies in that range, so no
id is probed twice. -/
theorem refresh_stop_exact (fetch : Nat → HttpOutcome) (tbl : List OzPlayer) (M T : Nat)
    (hM : 1 ≤ M) (hT : 1 ≤ T)
    (hout : ∀ j < M, fetch (get_max_oz_id tbl + j + 1) = HttpOutcome.notFound ∨
        outcomeFoundSid (fetch (get_max_oz_id tbl + j + 1)) = true) :
    ∃ checked changed tbl',
      refresh fetch tbl M T = Except.ok (checked, changed, tbl') ∧
      1 ≤ checked ∧ checked ≤ M ∧
      (checked = M ∨ T ≤ streakFrom fetch (get_max_oz_id tbl) 0 checked) ∧
      (∀ m < checked, streakFrom fetch (get_max_oz_id tbl) 0 m < T) ∧
      (∀ fetch2 : Nat → HttpOutcome,
        (∀ j, 1 ≤ j → j ≤ checked →
          fetch2 (get_max_oz_id tbl + j) = fetch (get_max_oz_id tbl + j)) →
        refresh fetch2 tbl M T = refresh fetch tbl M T) := by
  have hne : ∀ j < M, fetch (get_max_oz_id tbl + 0 + j + 1) ≠ HttpOutcome.failure := by
    intro j hj
    simp only [Nat.add_zero]
    rcases hout j hj with h | h
    · rw [h]
      simp
    · intro hc
      rw [hc] at h
      simp [outcomeFoundSid] at h
  obtain ⟨n, chg, tbl', heq, hle, hd, hlt⟩ :=
    refreshGo_char fetch (get_max_oz_id tbl) T hT M 0 0 0 tbl (by omega) hne
  rw [Nat.zero_add] at heq
  simp only [Nat.add_zero] at hd hlt
  have hn1 : 1 ≤ n := by
    by_contra hcon
    have hn0 : n = 0 := by omega
    subst hn0
    rcases hd with hd | hd
    · omega
    · have h0 : streakFrom fetch (get_max_oz_id tbl) 0 0 = 0 := rfl
      omega
  refine ⟨n, chg, tbl', heq, hn1, hle, hd, hlt, ?_⟩
  intro fetch2 hag
  have hag' : ∀ j, 0 < j → j ≤ n →
      fetch2 (get_max_oz_id tbl + j) = fetch (get_max_oz_id tbl + j) := by
    intro j h1 h2
    exact hag j (by omega) h2
  have hcongr := refreshGo_congr (get_max_oz_id tbl) T M 0 0 0 tbl fetch fetch2 n chg tbl'
    heq hag'
  unfold refresh
  rw [hcongr]
  exact heq.symm

theorem refresh_stop_exact_check :
    refresh exFetchNF exTbl3 300 20 = Except.ok (20, 0, exTbl3) ∧
    (∀ m < 20, streakFrom exFetchNF (get_max_oz_id exTbl3) 0 m < 20) ∧
    (20 = 300 ∨ 20 ≤ streakFrom exFetchNF (get_max_oz_id exTbl3) 0 20) := by
  obtain ⟨ch, chg, tbl', heq, h1, h2, hd, hlt, _⟩ :=
    refresh_stop_exact exFetchNF exTbl3 300 20 (by omega) (by omega)
      (fun j hj => Or.inl rfl)
  have hrfl : refresh exFetchNF exTbl3 300 20 = Except.ok (20, 0, exTbl3) := rfl
  rw [hrfl] at heq
  simp only [Except.ok.injEq, Prod.mk.injEq] at heq
  obtain ⟨hc, hg, ht⟩ := heq
  subst hc
  exact ⟨hrfl, hlt, hd⟩
